import Mathlib

/-!
Shallow embedding of the batch product-image refinement app: the queue
state store and submission workflow of `src/App.tsx`, the
`refineProductImage` service, and the `BatchItem` data model of
`src/types.ts`.
-/

/-- Status of a `BatchItem`: the string union
`idle | processing | success | error` of `src/types.ts`. -/
inductive Status where
  | idle
  | processing
  | success
  | error
  deriving DecidableEq

/-- The `BatchItem` interface of `src/types.ts`: `generated` is declared
`string | null` and `errorMessage` is an optional field, both embedded as
`Option String`. -/
structure BatchItem where
  id : String
  original : String
  generated : Option String
  status : Status
  errorMessage : Option String
  deriving DecidableEq

/-- The `AspectRatio` string enum of `src/types.ts`. -/
inductive AspectRatio where
  | square
  | portrait
  | landscape
  | wide
  deriving DecidableEq

/-- String value of each `AspectRatio` enum member. -/
def AspectRatio.value : AspectRatio → String
  | .square => "1:1"
  | .portrait => "3:4"
  | .landscape => "4:3"
  | .wide => "16:9"

/-- JS `String.prototype.indexOf` for a single character: the index of the
first occurrence, or `-1` when absent. -/
def jsIndexOf (s : String) (c : Char) : Int :=
  match s.toList.findIdx? (fun x => x == c) with
  | some n => (n : Int)
  | none => -1

/-- JS `String.prototype.substring`: negative arguments clamp to `0`,
arguments above the length clamp to the length, and the two endpoints are
swapped when given in descending order. -/
def jsSubstring (s : String) (startArg stopArg : Int) : String :=
  let len : Int := (s.length : Int)
  let a : Nat := (max 0 (min startArg len)).toNat
  let b : Nat := (max 0 (min stopArg len)).toNat
  String.mk ((s.toList.drop (min a b)).take (max a b - min a b))

/-- The `base64Image.split(',')[1]` step of `refineProductImage`: the text
after the first comma, `undefined` (here `none`) when there is no comma. -/
def base64DataOf (s : String) : Option String :=
  (s.splitOn ",").get? 1

/-- The `base64Image.substring(base64Image.indexOf(':') + 1,
base64Image.indexOf(';'))` step of `refineProductImage`. -/
def mimeTypeOf (s : String) : String :=
  jsSubstring s (jsIndexOf s ':' + 1) (jsIndexOf s ';')

/-- The fixed fallback instruction substituted when the user instruction is
empty (the right-hand side of the `customInstruction || "..."` template
interpolation). -/
def defaultInstruction : String :=
  "Keep the product faithful to the original but significantly enhance the visual appeal."

/-- Text of the prompt template literal before the interpolated instruction. -/
def promptPreamble : String :=
  "\n      Act as a professional high-end product photographer and photo retoucher. \n      Transform the input image into a high-definition, studio-quality e-commerce main product image (Hero Shot).\n      \n      Requirements:\n      1. Lighting: Use professional studio lighting (softbox/rim lighting) to highlight product details and texture.\n      2. Background: Place the product on a clean, neutral background (pure white or very subtle gradient studio gray) suitable for Amazon/Shopify.\n      3. Quality: Ensure 4K resolution look, sharp edges, and reduced noise.\n      4. Aesthetics: Make the product look premium, expensive, and desirable.\n      5. Fixes: Correct any white balance issues, remove dust/scratches if visible, and straighten the perspective if needed.\n      \n      User specific instructions: "

/-- Text of the prompt template literal after the interpolated instruction. -/
def promptEpilogue : String :=
  "\n    "

/-- The `prompt` template literal of `refineProductImage`: JS `||`
substitutes `defaultInstruction` exactly when `customInstruction` is the
empty string. -/
def refinePrompt (customInstruction : String) : String :=
  promptPreamble ++
    (if customInstruction = "" then defaultInstruction else customInstruction) ++
    promptEpilogue

/-- The outbound `generateContent` request assembled by `refineProductImage`:
the inline image part, the text prompt part, and the aspect ratio placed in
`config.imageConfig`. -/
structure RefineRequest where
  imageData : Option String
  mimeType : String
  prompt : String
  aspectRatio : AspectRatio
  deriving DecidableEq

/-- Assembles the outbound request exactly as `refineProductImage` does
before calling `ai.models.generateContent`. -/
def buildRefineRequest (base64Image customInstruction : String) (r : AspectRatio) :
    RefineRequest :=
  { imageData := base64DataOf base64Image
    mimeType := mimeTypeOf base64Image
    prompt := refinePrompt customInstruction
    aspectRatio := r }

/-- The `inlineData` of one response part. -/
structure InlineData where
  data : String
  deriving DecidableEq

/-- One part of a response candidate content. -/
structure ResponsePart where
  inlineData : Option InlineData
  text : Option String
  deriving DecidableEq

/-- A `candidate.content`, whose `parts` may be absent. -/
structure ResponseContent where
  parts : Option (List ResponsePart)
  deriving DecidableEq

/-- One response candidate. -/
structure Candidate where
  content : ResponseContent
  deriving DecidableEq

/-- A `generateContent` response: `candidates` may be absent. -/
structure GenResponse where
  candidates : Option (List Candidate)
  deriving DecidableEq

/-- The ways the extraction step of `refineProductImage` can throw: the
explicit `new Error("No image data received from Gemini.")`, and the runtime
`TypeError` raised by `response.candidates[0].content` when `candidates` is
present but empty. -/
inductive RefineError where
  | noImageData
  | typeErrorUndefined
  deriving DecidableEq

/-- The `message` carried by each `RefineError`. The `TypeError` text is
runtime dependent; a fixed stand-in is used since no claim depends on it. -/
def RefineError.message : RefineError → String
  | .noImageData => "No image data received from Gemini."
  | .typeErrorUndefined => "TypeError: cannot read property of undefined"

/-- The `for (const part of parts)` scan of `refineProductImage`: the first
part whose `inlineData` exists and whose `data` is truthy (non-empty). -/
def findImagePart : List ResponsePart → Option String
  | [] => none
  | p :: rest =>
    match p.inlineData with
    | some d => if d.data = "" then findImagePart rest else some d.data
    | none => findImagePart rest

/-- The response-extraction tail of `refineProductImage`: return the first
inline image prefixed with `data:image/png;base64,`, else throw. The success
type is `Option String` because the function is declared
`Promise<string | null>`. -/
def extractImage (response : GenResponse) : Except RefineError (Option String) :=
  match response.candidates with
  | none => Except.error RefineError.noImageData
  | some [] => Except.error RefineError.typeErrorUndefined
  | some (c :: _) =>
    match c.content.parts with
    | none => Except.error RefineError.noImageData
    | some parts =>
      match findImagePart parts with
      | some d => Except.ok (some ("data:image/png;base64," ++ d))
      | none => Except.error RefineError.noImageData

/-- The whole `refineProductImage`, with the external service reply as an
explicit input: the request it sends and the settled result. Its `catch`
only logs and rethrows, so errors pass through unchanged. -/
def refineProductImage (base64Image customInstruction : String) (r : AspectRatio)
    (response : GenResponse) : RefineRequest × Except RefineError (Option String) :=
  (buildRefineRequest base64Image customInstruction r, extractImage response)

/-- C10: `refineProductImage` never fulfills with `null` despite its declared
`Promise<string | null>` type: every fulfilled value is a string extending
the `data:image/png;base64,` prefix, and every response without inline image
data makes it throw instead. -/
theorem refineProductImage_never_fulfills_null (b i : String) (r : AspectRatio)
    (resp : GenResponse) :
    (refineProductImage b i r resp).2 ≠ Except.ok none ∧
      ∀ s, (refineProductImage b i r resp).2 = Except.ok (some s) →
        ∃ rest, s = "data:image/png;base64," ++ rest := by
  unfold refineProductImage extractImage
  cases hc : resp.candidates with
  | none => simp
  | some cs =>
    cases cs with
    | nil => simp
    | cons c0 rest0 =>
      dsimp only
      cases hp : c0.content.parts with
      | none => simp [hp]
      | some parts =>
        dsimp only
        cases hf : findImagePart parts with
        | none => simp
        | some d =>
          refine ⟨by simp, ?_⟩
          intro s hs
          simp only [Except.ok.injEq, Option.some.injEq] at hs
          exact ⟨d, hs.symm⟩

/-- A concrete successful response carrying one inline image. -/
def imgResponse : GenResponse :=
  { candidates := some [{ content := { parts := some [{ inlineData := some { data := "IMG" }, text := none }] } }] }

/-- Witness for C10 at a concrete one-part response. -/
theorem refineProductImage_never_fulfills_null_witness :
    (refineProductImage "img" "" AspectRatio.square imgResponse).2 =
      Except.ok (some "data:image/png;base64,IMG") ∧
      ∃ rest, "data:image/png;base64,IMG" = "data:image/png;base64," ++ rest := by
  have h := refineProductImage_never_fulfills_null "img" "" AspectRatio.square imgResponse
  exact ⟨rfl, h.2 "data:image/png;base64,IMG" rfl⟩

/-- How one `generateContent` invocation behaves: the promise fulfills with a
response, or rejects (network failure and the like) with an optional
`message`. -/
inductive ServiceBehavior where
  | respond (response : GenResponse)
  | throwErr (message : Option String)

/-- What one `refineProductImage` call settles to, as seen by `processItem`:
fulfilled with the declared `string | null` value, or rejected with an
optional `error.message`. -/
inductive CallResult where
  | fulfilled (value : Option String)
  | rejected (message : Option String)
  deriving DecidableEq

/-- Runs one collaborator call: `refineProductImage` forwards the service
reply through `extractImage`, and its `catch` rethrows errors unchanged. -/
def callCollaborator (svc : RefineRequest → ServiceBehavior) (req : RefineRequest) :
    CallResult :=
  match svc req with
  | ServiceBehavior.throwErr m => CallResult.rejected m
  | ServiceBehavior.respond resp =>
    match extractImage resp with
    | Except.ok v => CallResult.fulfilled v
    | Except.error e => CallResult.rejected (some e.message)

/-- The `error.message || "Failed"` fallback: JS `||` substitutes `"Failed"`
when the message is `undefined` or the empty string. -/
def errMsgOrDefault : Option String → String
  | none => "Failed"
  | some m => if m = "" then "Failed" else m

/-- Per-item update of the `processing` branch of `processItem`: the spread
sets `status` and writes `undefined` to a property named `error`, which is
not a field of `BatchItem`; in particular `errorMessage` is left untouched. -/
def procFn (i : BatchItem) : BatchItem :=
  { i with status := Status.processing }

/-- Per-item update applied when the awaited call settles: the success
branch stores the returned value in `generated` (without touching
`errorMessage`); the `catch` branch stores the fallback message. -/
def resFn (res : CallResult) (i : BatchItem) : BatchItem :=
  match res with
  | CallResult.fulfilled v => { i with status := Status.success, generated := v }
  | CallResult.rejected m =>
    { i with status := Status.error, errorMessage := some (errMsgOrDefault m) }

/-- The `setQueue(prev => prev.map(...))` call marking one item
`processing`. -/
def applyProcessing (q : List BatchItem) (targetId : String) : List BatchItem :=
  q.map fun i => if i.id = targetId then procFn i else i

/-- The `setQueue` map recording the settled result on the matching item. -/
def applyResult (q : List BatchItem) (targetId : String) (res : CallResult) :
    List BatchItem :=
  q.map fun i => if i.id = targetId then resFn res i else i

/-- Observable call events of one run, recorded for the sequencing claims. -/
inductive Event where
  | callStart (id : String) (req : RefineRequest)
  | callEnd (id : String) (res : CallResult)
  deriving DecidableEq

/-- The `App` component state touched by the workflow. -/
structure AppState where
  queue : List BatchItem
  customPrompt : String
  aspectRatio : AspectRatio
  isProcessing : Bool
  deriving DecidableEq

/-- The request `processItem` sends for one item: the item's `original`, the
shared `customPrompt` and the shared `aspectRatio`. -/
def reqOf (p : String) (r : AspectRatio) (it : BatchItem) : RefineRequest :=
  buildRefineRequest it.original p r

/-- The settled outcome of the call made for one item. -/
def outcomeOf (svc : RefineRequest → ServiceBehavior) (p : String) (r : AspectRatio)
    (it : BatchItem) : CallResult :=
  callCollaborator svc (reqOf p r it)

/-- The `processItem` helper of `App.tsx` as a queue transformation: mark
`processing`, await the call, record the result; the `try`/`catch` turns a
rejection into the `error` branch, so the function is total. -/
def processItem (svc : RefineRequest → ServiceBehavior) (p : String) (r : AspectRatio)
    (q : List BatchItem) (it : BatchItem) : List BatchItem :=
  applyResult (applyProcessing q it.id) it.id (outcomeOf svc p r it)

/-- The selection predicate of line 59:
`item.status === 'idle' || item.status === 'error'`. -/
def eligible (it : BatchItem) : Bool :=
  it.status == Status.idle || it.status == Status.error

/-- The sequential `for (const item of itemsToProcess)` loop, also emitting
the call trace: each item's call starts and settles before the next item's
call starts. -/
def runSelected (svc : RefineRequest → ServiceBehavior) (p : String) (r : AspectRatio) :
    List BatchItem → List BatchItem → List BatchItem × List Event
  | q, [] => (q, [])
  | q, it :: rest =>
    let out := runSelected svc p r (processItem svc p r q it) rest
    (out.1,
      Event.callStart it.id (reqOf p r it) ::
        Event.callEnd it.id (outcomeOf svc p r it) :: out.2)

/-- The `processQueue` operation: ignore re-entrant calls, snapshot the
eligible items, process them sequentially, reset `isProcessing` at the end. -/
def processQueue (svc : RefineRequest → ServiceBehavior) (s : AppState) :
    AppState × List Event :=
  if s.isProcessing then (s, [])
  else
    let out := runSelected svc s.customPrompt s.aspectRatio s.queue
      (s.queue.filter eligible)
    ({ s with queue := out.1, isProcessing := false }, out.2)

/-- `runSelected` under environment interference: after each processed item,
`handleImagesSelect` may append a batch of freshly uploaded idle items
(`setQueue(prev => [...prev, ...newItems])`); the iteration still walks the
snapshot taken at run start. -/
def runSelectedArr (svc : RefineRequest → ServiceBehavior) (p : String)
    (r : AspectRatio) :
    List BatchItem → List BatchItem → List (List BatchItem) →
      List BatchItem × List Event
  | q, [], _ => (q, [])
  | q, it :: rest, arr =>
    let out := runSelectedArr svc p r (processItem svc p r q it ++ arr.headD [])
      rest arr.tail
    (out.1,
      Event.callStart it.id (reqOf p r it) ::
        Event.callEnd it.id (outcomeOf svc p r it) :: out.2)

/-- `processQueue` with mid-run uploads appended at the await boundaries. -/
def processQueueArr (svc : RefineRequest → ServiceBehavior)
    (arr : List (List BatchItem)) (s : AppState) : AppState × List Event :=
  if s.isProcessing then (s, [])
  else
    let out := runSelectedArr svc s.customPrompt s.aspectRatio s.queue
      (s.queue.filter eligible) arr
    ({ s with queue := out.1, isProcessing := false }, out.2)

/-- A fresh item as created by `handleImagesSelect`: `idle`, no generated
payload, no error message. -/
def mkIdleItem (id img : String) : BatchItem :=
  { id := id, original := img, generated := none, status := Status.idle,
    errorMessage := none }

/-- `handleImagesSelect`: each selected file becomes a fresh idle item
appended at the end of the queue, preserving arrival order. -/
def handleImagesSelect (q : List BatchItem) (uploads : List (String × String)) :
    List BatchItem :=
  q ++ uploads.map fun u => mkIdleItem u.1 u.2

/-- `handleDeleteItem`: filter the item out by id. -/
def handleDeleteItem (q : List BatchItem) (targetId : String) : List BatchItem :=
  q.filter fun i => i.id != targetId

/-- The delete button of an item card is rendered with
`disabled={item.status === 'processing'}`. -/
def removeButtonDisabled (it : BatchItem) : Bool :=
  it.status == Status.processing

/-- The user-facing remove operation: clicking the delete button of the card
whose item has this id runs `handleDeleteItem` only when the button is
enabled. -/
def removeItem (q : List BatchItem) (targetId : String) : List BatchItem :=
  match q.find? (fun i => i.id == targetId) with
  | some it => if removeButtonDisabled it then q else handleDeleteItem q targetId
  | none => q

/-- Ids of `callStart` events, in order. -/
def callStartIds : List Event → List String
  | [] => []
  | Event.callStart id _ :: rest => id :: callStartIds rest
  | Event.callEnd _ _ :: rest => callStartIds rest

/-- Checks that a trace is a sequence of immediately completed calls: every
`callStart` is followed by its matching `callEnd` before anything else
happens, so at most one call is ever in flight. -/
def sequentialTrace : List Event → Bool
  | [] => true
  | Event.callStart id1 _ :: Event.callEnd id2 _ :: rest =>
    id1 == id2 && sequentialTrace rest
  | _ => false

/-- Whether a call settled successfully. -/
def CallResult.isFulfilled : CallResult → Bool
  | CallResult.fulfilled _ => true
  | CallResult.rejected _ => false

/-- Lookup of the queue entry with a given id. -/
def findById (q : List BatchItem) (targetId : String) : Option BatchItem :=
  q.find? fun i => i.id == targetId

/-- C3: a re-entrant `processQueue` trigger while `isProcessing` is true
returns at once: the state is untouched and no call events occur. -/
theorem processQueue_reentrant_noop (svc : RefineRequest → ServiceBehavior)
    (s : AppState) (h : s.isProcessing = true) :
    processQueue svc s = (s, []) := by
  simp [processQueue, h]

/-- Witness for C3 at a concrete busy state. -/
theorem processQueue_reentrant_noop_witness :
    processQueue (fun _ => ServiceBehavior.throwErr none)
        { queue := [mkIdleItem "a" "o"], customPrompt := "", aspectRatio := AspectRatio.square, isProcessing := true } =
      ({ queue := [mkIdleItem "a" "o"], customPrompt := "", aspectRatio := AspectRatio.square, isProcessing := true }, []) :=
  processQueue_reentrant_noop _ _ rfl

/-- The expected call trace of a run over a selection, used by the
sequencing lemmas. -/
def traceOf (svc : RefineRequest → ServiceBehavior) (p : String) (r : AspectRatio) :
    List BatchItem → List Event
  | [] => []
  | it :: rest =>
    Event.callStart it.id (reqOf p r it) ::
      Event.callEnd it.id (outcomeOf svc p r it) :: traceOf svc p r rest

theorem runSelected_events (svc : RefineRequest → ServiceBehavior) (p : String)
    (r : AspectRatio) :
    ∀ (sel : List BatchItem) (q : List BatchItem),
      (runSelected svc p r q sel).2 = traceOf svc p r sel := by
  intro sel
  induction sel with
  | nil => intro q; rfl
  | cons it rest ih =>
    intro q
    simp [runSelected, traceOf, ih]

theorem runSelectedArr_events (svc : RefineRequest → ServiceBehavior) (p : String)
    (r : AspectRatio) :
    ∀ (sel : List BatchItem) (q : List BatchItem) (arr : List (List BatchItem)),
      (runSelectedArr svc p r q sel arr).2 = traceOf svc p r sel := by
  intro sel
  induction sel with
  | nil => intro q arr; rfl
  | cons it rest ih =>
    intro q arr
    simp [runSelectedArr, traceOf, ih]

theorem traceOf_sequential (svc : RefineRequest → ServiceBehavior) (p : String)
    (r : AspectRatio) (sel : List BatchItem) :
    sequentialTrace (traceOf svc p r sel) = true := by
  induction sel with
  | nil => rfl
  | cons it rest ih => simp [traceOf, sequentialTrace, ih]

theorem traceOf_callStartIds (svc : RefineRequest → ServiceBehavior) (p : String)
    (r : AspectRatio) (sel : List BatchItem) :
    callStartIds (traceOf svc p r sel) = sel.map (fun it => it.id) := by
  induction sel with
  | nil => rfl
  | cons it rest ih => simp [traceOf, callStartIds, ih]

theorem traceOf_callStart_mem (svc : RefineRequest → ServiceBehavior) (p : String)
    (r : AspectRatio) (sel : List BatchItem) (id : String) (req : RefineRequest)
    (hev : Event.callStart id req ∈ traceOf svc p r sel) :
    ∃ it, it ∈ sel ∧ id = it.id ∧ req = reqOf p r it := by
  induction sel with
  | nil => cases hev
  | cons it rest ih =>
    simp only [traceOf, List.mem_cons] at hev
    rcases hev with h1 | h2 | h3
    · exact ⟨it, List.mem_cons_self it rest, by injection h1, by injection h1⟩
    · cases h2
    · obtain ⟨x, hx, hid, hreq⟩ := ih h3
      exact ⟨x, List.mem_cons_of_mem it hx, hid, hreq⟩

/-- C6: within one run the selected items are processed strictly
sequentially in snapshot (queue, hence submission) order: the event trace is
a sequence of immediately completed calls — each `callStart` is followed by
its own `callEnd` before any other call event, so no two calls are ever in
flight — and the calls occur exactly in the order of the eligible items. -/
theorem processQueue_strictly_sequential (svc : RefineRequest → ServiceBehavior)
    (s : AppState) (h : s.isProcessing = false) :
    sequentialTrace (processQueue svc s).2 = true ∧
      callStartIds (processQueue svc s).2 =
        (s.queue.filter eligible).map (fun it => it.id) := by
  have he : (processQueue svc s).2 =
      traceOf svc s.customPrompt s.aspectRatio (s.queue.filter eligible) := by
    simp [processQueue, h, runSelected_events]
  rw [he]
  exact ⟨traceOf_sequential svc s.customPrompt s.aspectRatio _,
    traceOf_callStartIds svc s.customPrompt s.aspectRatio _⟩

/-- A concrete service that always replies with one inline image. -/
def okSvc : RefineRequest → ServiceBehavior :=
  fun _ => ServiceBehavior.respond imgResponse

/-- A concrete three-idle-item state. -/
def threeState : AppState :=
  { queue := [mkIdleItem "i1" "o1", mkIdleItem "i2" "o2", mkIdleItem "i3" "o3"],
    customPrompt := "", aspectRatio := AspectRatio.square, isProcessing := false }

/-- Witness for C6 on a three-item queue. -/
theorem processQueue_strictly_sequential_witness :
    sequentialTrace (processQueue okSvc threeState).2 = true ∧
      callStartIds (processQueue okSvc threeState).2 = ["i1", "i2", "i3"] := by
  obtain ⟨h1, h2⟩ := processQueue_strictly_sequential okSvc threeState rfl
  exact ⟨h1, h2.trans (by decide)⟩

/-- C7: the calls of a run are exactly the items that are `idle` or `error`
in the queue snapshot at run start, in order — `success` and `processing`
items are never called — and this is unaffected by any batches of items
appended mid-run, whose members are not processed in that run. -/
theorem processQueue_selection_snapshot (svc : RefineRequest → ServiceBehavior)
    (arr : List (List BatchItem)) (s : AppState) (h : s.isProcessing = false) :
    callStartIds (processQueueArr svc arr s).2 =
        (s.queue.filter eligible).map (fun it => it.id) ∧
      (processQueueArr svc arr s).2 = (processQueue svc s).2 := by
  have he : (processQueueArr svc arr s).2 =
      traceOf svc s.customPrompt s.aspectRatio (s.queue.filter eligible) := by
    simp [processQueueArr, h, runSelectedArr_events]
  have he2 : (processQueue svc s).2 =
      traceOf svc s.customPrompt s.aspectRatio (s.queue.filter eligible) := by
    simp [processQueue, h, runSelected_events]
  rw [he, he2]
  exact ⟨traceOf_callStartIds svc s.customPrompt s.aspectRatio _, rfl⟩

/-- Witness for C7: a success item is skipped and a mid-run upload is not
called. -/
theorem processQueue_selection_snapshot_witness :
    callStartIds (processQueueArr okSvc [[mkIdleItem "late" "o4"]]
        { queue := [mkIdleItem "i1" "o1",
            { id := "done", original := "o2", generated := some "g",
              status := Status.success, errorMessage := none }],
          customPrompt := "", aspectRatio := AspectRatio.square,
          isProcessing := false }).2 = ["i1"] := by
  have h := processQueue_selection_snapshot okSvc [[mkIdleItem "late" "o4"]]
    { queue := [mkIdleItem "i1" "o1",
        { id := "done", original := "o2", generated := some "g",
          status := Status.success, errorMessage := none }],
      customPrompt := "", aspectRatio := AspectRatio.square,
      isProcessing := false } rfl
  exact h.1.trans (by decide)

/-- C8: every outbound request of a run carries exactly the shared aspect
ratio; its prompt contains the shared custom instruction verbatim when that
instruction is non-empty, and contains the fixed default instruction in its
place when it is empty. -/
theorem processQueue_request_params (svc : RefineRequest → ServiceBehavior)
    (s : AppState) (id : String) (req : RefineRequest)
    (hev : Event.callStart id req ∈ (processQueue svc s).2) :
    req.aspectRatio = s.aspectRatio ∧
      (s.customPrompt ≠ "" →
        ∃ a b, req.prompt = a ++ s.customPrompt ++ b) ∧
      (s.customPrompt = "" →
        ∃ a b, req.prompt = a ++ defaultInstruction ++ b) := by
  by_cases h : s.isProcessing
  · rw [show processQueue svc s = (s, []) from by simp [processQueue, h]] at hev
    cases hev
  · have he : (processQueue svc s).2 =
        traceOf svc s.customPrompt s.aspectRatio (s.queue.filter eligible) := by
      simp [processQueue, h, runSelected_events]
    rw [he] at hev
    obtain ⟨it, -, -, hreq⟩ :=
      traceOf_callStart_mem svc s.customPrompt s.aspectRatio _ id req hev
    subst hreq
    refine ⟨rfl, ?_, ?_⟩
    · intro hne
      refine ⟨promptPreamble, promptEpilogue, ?_⟩
      simp [reqOf, buildRefineRequest, refinePrompt, hne]
    · intro hemp
      refine ⟨promptPreamble, promptEpilogue, ?_⟩
      simp [reqOf, buildRefineRequest, refinePrompt, hemp]

/-- A concrete state with a non-empty shared instruction and the 3:4 ratio. -/
def promptState : AppState :=
  { queue := [mkIdleItem "i1" "o1"], customPrompt := "make it pop",
    aspectRatio := AspectRatio.portrait, isProcessing := false }

/-- Witness for C8 at the first call event of a concrete run. -/
theorem processQueue_request_params_witness :
    (reqOf "make it pop" AspectRatio.portrait (mkIdleItem "i1" "o1")).aspectRatio =
        AspectRatio.portrait ∧
      ∃ a b, (reqOf "make it pop" AspectRatio.portrait
          (mkIdleItem "i1" "o1")).prompt = a ++ "make it pop" ++ b := by
  have h := processQueue_request_params okSvc promptState "i1"
    (reqOf "make it pop" AspectRatio.portrait (mkIdleItem "i1" "o1"))
    (List.mem_cons_self _ _)
  exact ⟨h.1, h.2.1 (by decide)⟩

theorem stepFn_lemma_id (res : CallResult) (i : BatchItem) : (resFn res i).id = i.id := by
  cases res <;> rfl

/-- One iteration of the loop as a single pointwise map over the queue. -/
theorem processItem_eq_map (svc : RefineRequest → ServiceBehavior) (p : String)
    (r : AspectRatio) (q : List BatchItem) (it : BatchItem) :
    processItem svc p r q it = q.map fun i =>
      if i.id = it.id then resFn (outcomeOf svc p r it) (procFn i) else i := by
  unfold processItem applyResult applyProcessing
  rw [List.map_map]
  apply List.map_congr_left
  intro i _
  by_cases h : i.id = it.id
  · simp [Function.comp, h, procFn]
  · simp [Function.comp, h]

theorem findById_map_of_id (q : List BatchItem) (targetId : String)
    (f : BatchItem → BatchItem) (hf : ∀ i, (f i).id = i.id) :
    findById (q.map f) targetId = (findById q targetId).map f := by
  unfold findById
  rw [List.find?_map]
  have hp : ((fun i : BatchItem => i.id == targetId) ∘ f) =
      fun i : BatchItem => i.id == targetId := by
    funext i
    simp [Function.comp, hf i]
  rw [hp]

theorem findById_found_id (q : List BatchItem) (targetId : String) (it : BatchItem)
    (h : findById q targetId = some it) : it.id = targetId := by
  have := List.find?_some h
  exact beq_iff_eq.mp this

theorem findById_processItem_ne (svc : RefineRequest → ServiceBehavior) (p : String)
    (r : AspectRatio) (q : List BatchItem) (it : BatchItem) (targetId : String)
    (h : targetId ≠ it.id) :
    findById (processItem svc p r q it) targetId = findById q targetId := by
  rw [processItem_eq_map,
    findById_map_of_id q targetId _ (fun i => by
      by_cases hi : i.id = it.id <;> simp [hi, stepFn_lemma_id, procFn])]
  cases hq : findById q targetId with
  | none => rfl
  | some i =>
    have hid : i.id = targetId := findById_found_id q targetId i hq
    simp [hid, h]

theorem findById_processItem_self (svc : RefineRequest → ServiceBehavior) (p : String)
    (r : AspectRatio) (q : List BatchItem) (it : BatchItem)
    (hq : findById q it.id = some it) :
    findById (processItem svc p r q it) it.id =
      some (resFn (outcomeOf svc p r it) (procFn it)) := by
  rw [processItem_eq_map,
    findById_map_of_id q it.id _ (fun i => by
      by_cases hi : i.id = it.id <;> simp [hi, stepFn_lemma_id, procFn])]
  rw [hq]
  simp

theorem findById_of_nodup (q : List BatchItem) (x : BatchItem) (hx : x ∈ q)
    (hq : (q.map fun i => i.id).Nodup) : findById q x.id = some x := by
  unfold findById
  induction q with
  | nil => cases hx
  | cons a l ih =>
    rcases List.mem_cons.mp hx with rfl | hxl
    · exact List.find?_cons_of_pos l (by simp)
    · have hane : a.id ≠ x.id := by
        intro hcontra
        have hmem : x.id ∈ l.map fun i => i.id := List.mem_map_of_mem _ hxl
        rw [List.map_cons] at hq
        exact (List.nodup_cons.mp hq).1 (hcontra ▸ hmem)
      rw [List.find?_cons_of_neg l (by simp [hane])]
      exact ih hxl ((List.nodup_cons.mp (List.map_cons _ a l ▸ hq)).2)

theorem runSelected_fst (svc : RefineRequest → ServiceBehavior) (p : String)
    (r : AspectRatio) :
    ∀ (sel : List BatchItem) (q : List BatchItem),
      (runSelected svc p r q sel).1 =
        sel.foldl (fun acc it => processItem svc p r acc it) q := by
  intro sel
  induction sel with
  | nil => intro q; rfl
  | cons it rest ih =>
    intro q
    simp [runSelected, ih]

theorem runSelected_findById_notMem (svc : RefineRequest → ServiceBehavior)
    (p : String) (r : AspectRatio) :
    ∀ (sel : List BatchItem) (q : List BatchItem) (targetId : String),
      targetId ∉ sel.map (fun it => it.id) →
        findById (runSelected svc p r q sel).1 targetId = findById q targetId := by
  intro sel
  induction sel with
  | nil => intro q targetId _; rfl
  | cons it rest ih =>
    intro q targetId hni
    simp only [List.map_cons, List.mem_cons, not_or] at hni
    have step : (runSelected svc p r q (it :: rest)).1 =
        (runSelected svc p r (processItem svc p r q it) rest).1 := rfl
    rw [step, ih (processItem svc p r q it) targetId (by simpa using hni.2),
      findById_processItem_ne svc p r q it targetId hni.1]

theorem runSelected_findById_mem (svc : RefineRequest → ServiceBehavior)
    (p : String) (r : AspectRatio) :
    ∀ (sel : List BatchItem) (q : List BatchItem) (x : BatchItem),
      x ∈ sel → (sel.map fun it => it.id).Nodup → findById q x.id = some x →
        findById (runSelected svc p r q sel).1 x.id =
          some (resFn (outcomeOf svc p r x) (procFn x)) := by
  intro sel
  induction sel with
  | nil => intro q x hx; cases hx
  | cons it rest ih =>
    intro q x hx hnd hq
    have hnd' := List.nodup_cons.mp (List.map_cons _ it rest ▸ hnd)
    have step : (runSelected svc p r q (it :: rest)).1 =
        (runSelected svc p r (processItem svc p r q it) rest).1 := rfl
    rcases List.mem_cons.mp hx with rfl | hxr
    · rw [step, runSelected_findById_notMem svc p r rest _ x.id hnd'.1,
        findById_processItem_self svc p r q x hq]
    · have hne : x.id ≠ it.id := by
        intro hcontra
        exact hnd'.1 (hcontra ▸ List.mem_map_of_mem _ hxr)
      rw [step]
      exact ih (processItem svc p r q it) x hxr hnd'.2
        (by rw [findById_processItem_ne svc p r q it x.id hne]; exact hq)

/-- C4: failures are isolated per item. Under unique ids (they come from
`crypto.randomUUID`), after a run every eligible item of the snapshot has
been processed — its call appears in the trace and its final record is the
settled update, with status `success` or `error` and never an escaping
exception — and an item whose call rejected ends `error` carrying the
collaborator message, or `"Failed"` when none was provided; the run then
ends with `isProcessing` reset. -/
theorem processQueue_error_isolation (svc : RefineRequest → ServiceBehavior)
    (s : AppState) (h : s.isProcessing = false)
    (hq : (s.queue.map fun i => i.id).Nodup) :
    (processQueue svc s).1.isProcessing = false ∧
      callStartIds (processQueue svc s).2 =
        (s.queue.filter eligible).map (fun it => it.id) ∧
      ∀ it ∈ s.queue, eligible it = true →
        findById (processQueue svc s).1.queue it.id =
            some (resFn (outcomeOf svc s.customPrompt s.aspectRatio it) (procFn it)) ∧
          ∀ m, outcomeOf svc s.customPrompt s.aspectRatio it = CallResult.rejected m →
            findById (processQueue svc s).1.queue it.id =
              some { it with status := Status.error, errorMessage := some (errMsgOrDefault m) } := by
  have hq1 : (processQueue svc s).1 =
      { s with
        queue := (runSelected svc s.customPrompt s.aspectRatio s.queue
          (s.queue.filter eligible)).1,
        isProcessing := false } := by
    simp [processQueue, h]
  refine ⟨by rw [hq1], ?_, ?_⟩
  · have he : (processQueue svc s).2 =
        traceOf svc s.customPrompt s.aspectRatio (s.queue.filter eligible) := by
      simp [processQueue, h, runSelected_events]
    rw [he]
    exact traceOf_callStartIds svc s.customPrompt s.aspectRatio _
  · intro it hit helig
    have hsel : it ∈ s.queue.filter eligible := List.mem_filter.mpr ⟨hit, helig⟩
    have hsub : (s.queue.filter eligible).Sublist s.queue := List.filter_sublist s.queue
    have hnds : ((s.queue.filter eligible).map fun i => i.id).Nodup :=
      (hsub.map fun i => i.id).nodup hq
    have hfind : findById s.queue it.id = some it := findById_of_nodup s.queue it hit hq
    have hmain := runSelected_findById_mem svc s.customPrompt s.aspectRatio
      (s.queue.filter eligible) s.queue it hsel hnds hfind
    have hres : findById (processQueue svc s).1.queue it.id =
        some (resFn (outcomeOf svc s.customPrompt s.aspectRatio it) (procFn it)) := by
      rw [hq1]
      exact hmain
    refine ⟨hres, ?_⟩
    intro m hm
    rw [hres, hm]
    rfl

/-- A concrete service that always rejects with a message. -/
def failSvc : RefineRequest → ServiceBehavior :=
  fun _ => ServiceBehavior.throwErr (some "network down")

/-- A concrete two-idle-item state. -/
def twoState : AppState :=
  { queue := [mkIdleItem "x1" "o1", mkIdleItem "x2" "o2"], customPrompt := "",
    aspectRatio := AspectRatio.square, isProcessing := false }

/-- Witness for C4: both items of a run whose calls reject still get
processed, and the second ends `error` with the collaborator message. -/
theorem processQueue_error_isolation_witness :
    findById (processQueue failSvc twoState).1.queue "x2" =
        some { id := "x2", original := "o2", generated := none, status := Status.error, errorMessage := some "network down" } ∧
      (processQueue failSvc twoState).1.isProcessing = false := by
  obtain ⟨h1, -, h3⟩ := processQueue_error_isolation failSvc twoState rfl (by decide)
  obtain ⟨-, h5⟩ := h3 (mkIdleItem "x2" "o2") (by decide) rfl
  exact ⟨h5 (some "network down") rfl, h1⟩

/-- C9: removing an item while its status is `processing` is a no-op: the
delete button of such a card is disabled, so the user-facing remove
operation leaves the queue length and the item untouched. -/
theorem removeItem_processing_rejected (q : List BatchItem) (targetId : String)
    (it : BatchItem) (hf : findById q targetId = some it)
    (hp : it.status = Status.processing) :
    removeItem q targetId = q ∧ (removeItem q targetId).length = q.length ∧
      findById (removeItem q targetId) targetId = some it := by
  have hid : removeItem q targetId = q := by
    unfold removeItem
    unfold findById at hf
    rw [hf]
    simp [removeButtonDisabled, hp]
  exact ⟨hid, by rw [hid], by rw [hid]; exact hf⟩

/-- A concrete mid-call item. -/
def busyItem : BatchItem :=
  { id := "p", original := "o", generated := none, status := Status.processing,
    errorMessage := none }

/-- Witness for C9 on a singleton queue. -/
theorem removeItem_processing_rejected_witness :
    removeItem [busyItem] "p" = [busyItem] ∧
      (removeItem [busyItem] "p").length = [busyItem].length := by
  obtain ⟨h1, h2, -⟩ := removeItem_processing_rejected [busyItem] "p" busyItem rfl rfl
  exact ⟨h1, h2⟩

theorem runSelected_success_all (svc : RefineRequest → ServiceBehavior) (p : String)
    (r : AspectRatio) :
    ∀ (sel : List BatchItem) (q : List BatchItem),
      (∀ x ∈ sel, (outcomeOf svc p r x).isFulfilled = true) →
      ∀ it ∈ (runSelected svc p r q sel).1,
        (it.id ∈ sel.map (fun i => i.id) → it.status = Status.success) ∧
          (it.id ∉ sel.map (fun i => i.id) → it ∈ q) := by
  intro sel
  induction sel with
  | nil =>
    intro q _ it hit
    exact ⟨fun hmem => absurd hmem (by simp), fun _ => hit⟩
  | cons x rest ih =>
    intro q hall it hit
    have step : (runSelected svc p r q (x :: rest)).1 =
        (runSelected svc p r (processItem svc p r q x) rest).1 := rfl
    rw [step] at hit
    have hallr : ∀ y ∈ rest, (outcomeOf svc p r y).isFulfilled = true :=
      fun y hy => hall y (List.mem_cons_of_mem x hy)
    obtain ⟨ha, hb⟩ := ih (processItem svc p r q x) hallr it hit
    constructor
    · intro hmem
      rw [List.map_cons, List.mem_cons] at hmem
      by_cases hr : it.id ∈ rest.map (fun i => i.id)
      · exact ha hr
      · have hxid : it.id = x.id := by
          rcases hmem with h1 | h2
          · exact h1
          · exact absurd h2 hr
        have hin : it ∈ processItem svc p r q x := hb hr
        rw [processItem_eq_map] at hin
        obtain ⟨i0, hi0, hmap⟩ := List.mem_map.mp hin
        by_cases hi : i0.id = x.id
        · rw [if_pos hi] at hmap
          have hful := hall x (List.mem_cons_self x rest)
          cases hout : outcomeOf svc p r x with
          | fulfilled v =>
            rw [hout] at hmap
            rw [← hmap]
            rfl
          | rejected m =>
            rw [hout] at hful
            exact Bool.noConfusion hful
        · rw [if_neg hi] at hmap
          rw [← hmap] at hxid
          exact absurd hxid hi
    · intro hnmem
      rw [List.map_cons] at hnmem
      have hnx : it.id ≠ x.id := fun hcontra =>
        hnmem (by rw [hcontra]; exact List.mem_cons_self _ _)
      have hnr : it.id ∉ rest.map (fun i => i.id) := fun hcontra =>
        hnmem (List.mem_cons_of_mem _ hcontra)
      have hin : it ∈ processItem svc p r q x := hb hnr
      rw [processItem_eq_map] at hin
      obtain ⟨i0, hi0, hmap⟩ := List.mem_map.mp hin
      by_cases hi : i0.id = x.id
      · rw [if_pos hi] at hmap
        have hidkeep : (resFn (outcomeOf svc p r x) (procFn i0)).id = i0.id := by
          rw [stepFn_lemma_id]
          rfl
        rw [← hmap] at hnx
        rw [hidkeep] at hnx
        exact absurd hi hnx
      · rw [if_neg hi] at hmap
        rw [← hmap]
        exact hi0

theorem processQueue_noop_of_no_eligible (svc : RefineRequest → ServiceBehavior)
    (s1 : AppState) (hip : s1.isProcessing = false)
    (hfe : s1.queue.filter eligible = []) : processQueue svc s1 = (s1, []) := by
  cases s1 with
  | mk qf cp ar ip =>
    dsimp only at hip hfe
    subst hip
    simp [processQueue, hfe, runSelected]

/-- C5: when every call of a run succeeds, all items selected by that run
end `success`; a second run on the resulting state selects no items,
performs no calls, and leaves the state unchanged — `success` items are
never reselected. -/
theorem processQueue_idempotent_on_success (svc : RefineRequest → ServiceBehavior)
    (s : AppState) (h : s.isProcessing = false)
    (hs : ∀ it ∈ s.queue, eligible it = true →
        (outcomeOf svc s.customPrompt s.aspectRatio it).isFulfilled = true) :
    (∀ it ∈ (processQueue svc s).1.queue,
        it.id ∈ (s.queue.filter eligible).map (fun i => i.id) →
          it.status = Status.success) ∧
      (processQueue svc s).1.queue.filter eligible = [] ∧
      processQueue svc (processQueue svc s).1 = ((processQueue svc s).1, []) := by
  have hq1 : (processQueue svc s).1 =
      { s with
        queue := (runSelected svc s.customPrompt s.aspectRatio s.queue
          (s.queue.filter eligible)).1,
        isProcessing := false } := by
    simp [processQueue, h]
  have hall : ∀ x ∈ s.queue.filter eligible,
      (outcomeOf svc s.customPrompt s.aspectRatio x).isFulfilled = true := by
    intro x hx
    have hmf := List.mem_filter.mp hx
    exact hs x hmf.1 hmf.2
  have hmain := runSelected_success_all svc s.customPrompt s.aspectRatio
    (s.queue.filter eligible) s.queue hall
  have hpart1 : ∀ it ∈ (processQueue svc s).1.queue,
      it.id ∈ (s.queue.filter eligible).map (fun i => i.id) →
        it.status = Status.success := by
    intro it hit hmem
    rw [hq1] at hit
    exact (hmain it hit).1 hmem
  have hfe : (processQueue svc s).1.queue.filter eligible = [] := by
    apply List.filter_eq_nil_iff.mpr
    intro it hit
    by_cases hmem : it.id ∈ (s.queue.filter eligible).map (fun i => i.id)
    · have hsucc := hpart1 it hit hmem
      simp [eligible, hsucc]
    · rw [hq1] at hit
      have hinq := (hmain it hit).2 hmem
      intro helig
      exact hmem (List.mem_map_of_mem _ (List.mem_filter.mpr ⟨hinq, helig⟩))
  have hip1 : (processQueue svc s).1.isProcessing = false := by
    rw [hq1]
  exact ⟨hpart1, hfe, processQueue_noop_of_no_eligible svc _ hip1 hfe⟩

/-- Witness for C5: after a fully successful run, a second run is a no-op. -/
theorem processQueue_idempotent_on_success_witness :
    (processQueue okSvc twoState).1.queue.filter eligible = [] ∧
      processQueue okSvc (processQueue okSvc twoState).1 =
        ((processQueue okSvc twoState).1, []) := by
  obtain ⟨-, h2, h3⟩ := processQueue_idempotent_on_success okSvc twoState rfl (by decide)
  exact ⟨h2, h3⟩

/-- A failed item about to be retried: `error` with a stored message. -/
def staleItem : BatchItem :=
  { id := "a", original := "o", generated := none, status := Status.error,
    errorMessage := some "boom" }

/-- The retry state: one `error` item, eligible for the next run. -/
def staleState : AppState :=
  { queue := [staleItem], customPrompt := "", aspectRatio := AspectRatio.square,
    isProcessing := false }

/-- C1 (violation exhibited): the claimed invariant that `errorMessage` is
set only when `status = error` fails. Retrying the failed item with a
succeeding call ends with `status = success` and a non-null `generated`,
yet `errorMessage` is still `"boom"`: the processing update writes
`undefined` to a property named `error` — not a `BatchItem` field — instead
of clearing `errorMessage`, and the success update never touches it. -/
theorem success_item_keeps_stale_message :
    (processQueue okSvc staleState).1.queue =
      [{ id := "a", original := "o", generated := some "data:image/png;base64,IMG", status := Status.success, errorMessage := some "boom" }] := by
  rfl

/-- C2 (violation exhibited): an `error` item selected by a later run does
transition `error → processing → success`, but neither the `processing`
update nor the `success` update clears the prior `errorMessage`. -/
theorem retry_success_keeps_stale_message :
    applyProcessing [staleItem] "a" =
        [{ id := "a", original := "o", generated := none, status := Status.processing, errorMessage := some "boom" }] ∧
      (processQueue okSvc staleState).1.queue =
        [{ id := "a", original := "o", generated := some "data:image/png;base64,IMG", status := Status.success, errorMessage := some "boom" }] := by
  exact ⟨rfl, rfl⟩
